import Mathlib

/-!
Verification of `package-sync.py` (hezy/package-sync).

The Python module is shallowly embedded below.  Python re-defines several
functions later in the same file; following Python semantics, the later
definition of each name is the live one, and that is the one embedded here.

External effects (subprocess runs, ping results, the filesystem clock) are
modelled as explicit inputs: each embedded function takes the outcomes of
its external calls as oracle parameters and returns, besides its Python
return value, a trace of the calls it made.

Python data is embedded as follows: `str` as `String`, `float` latencies as
`ℚ`, sets of package names as deduplicated `List String` (with their
`Finset` of members as the set value), dicts as association lists in
insertion order.
-/

namespace PackageSync

/-- The three package-manager backends hard-coded in the script. -/
inductive Backend
  | brew
  | flatpak
  | pipx
  deriving DecidableEq, Repr

/-- A reconciliation operation: `install_package` or `remove_package`. -/
inductive Op
  | install
  | remove
  deriving DecidableEq, Repr

/-- One attempted action of the reconciliation loop in `sync_packages`:
backend, operation, package name. -/
abbrev Action := Backend × Op × String

/-! ### Python's string order

CPython compares `str` values lexicographically by code point, which is the
lexicographic order on the underlying character list.  `charListLe` is that
comparison written as structural recursion (so that the kernel can evaluate
it); `pyLe_iff` proves it agrees with Mathlib's linear order on `String`. -/

/-- Lexicographic comparison of character lists by code point, the order
Python's `sorted` uses on `str`. -/
def charListLe : List Char → List Char → Bool
  | [], _ => true
  | _ :: _, [] => false
  | a :: as, b :: bs =>
      if a < b then true
      else if b < a then false
      else charListLe as bs

/-- Python's `<=` on strings, as a proposition. -/
def pyLe (a b : String) : Prop := charListLe a.data b.data = true

instance : DecidableRel pyLe := fun a b =>
  inferInstanceAs (Decidable (charListLe a.data b.data = true))

theorem charListLe_iff :
    ∀ s t : List Char, charListLe s t = true ↔ ¬ List.Lex (· < ·) t s
  | [], t => by
      constructor
      · intro _ h
        cases h
      · intro _
        rfl
  | _ :: _, [] => by
      constructor
      · intro h
        cases h
      · intro h
        exact absurd List.Lex.nil h
  | a :: as, b :: bs => by
      rcases lt_trichotomy a b with hab | hab | hab
      · constructor
        · intro _ h
          cases h with
          | cons h' => exact lt_irrefl a hab
          | rel h' => exact lt_asymm hab h'
        · intro _
          simp [charListLe, hab]
      · subst hab
        have hred : charListLe (a :: as) (a :: bs) = charListLe as bs := by
          simp [charListLe]
        rw [hred, charListLe_iff as bs]
        constructor
        · intro h hl
          cases hl with
          | cons h' => exact h h'
          | rel h' => exact lt_irrefl a h'
        · intro h hl
          exact h (List.Lex.cons hl)
      · constructor
        · intro hle
          have : charListLe (a :: as) (b :: bs) = false := by
            simp [charListLe, hab, asymm hab]
          rw [this] at hle
          cases hle
        · intro h
          exact absurd (List.Lex.rel hab) h

/-- The executable comparison `pyLe` is exactly Mathlib's `≤` on `String`:
sorting by `pyLe` is sorting in ascending lexical order. -/
theorem pyLe_iff (a b : String) : pyLe a b ↔ a ≤ b := by
  rw [pyLe, charListLe_iff]
  have hlt : b < a ↔ List.Lex (· < ·) b.data a.data := String.lt_iff_toList_lt
  constructor
  · intro h
    exact not_lt.mp (fun hba => h (hlt.mp hba))
  · intro h hba
    exact absurd (hlt.mpr hba) (not_lt.mpr h)

instance : IsTotal String pyLe :=
  ⟨fun a b => by rw [pyLe_iff, pyLe_iff]; exact le_total a b⟩

instance : IsTrans String pyLe :=
  ⟨fun a b c ha hb => by
    rw [pyLe_iff] at *
    exact le_trans ha hb⟩

instance : IsAntisymm String pyLe :=
  ⟨fun a b ha hb => by
    rw [pyLe_iff] at *
    exact le_antisymm ha hb⟩

/-- Python's `sorted` on (an enumeration of) a set of strings: insertion
sort by the code-point order. -/
def pySorted (l : List String) : List String := List.insertionSort pyLe l

theorem pySorted_sorted (l : List String) :
    List.Sorted (· ≤ ·) (pySorted l) :=
  (List.sorted_insertionSort pyLe l).imp (fun h => (pyLe_iff _ _).mp h)

theorem pySorted_perm (l : List String) : List.Perm (pySorted l) l :=
  List.perm_insertionSort pyLe l

/-- Sorted enumerations of the same finite set of strings coincide. -/
theorem pySorted_eq_of_toFinset {l l' : List String}
    (h1 : l.Nodup) (h2 : l'.Nodup) (h : l.toFinset = l'.toFinset) :
    pySorted l = pySorted l' := by
  refine List.eq_of_perm_of_sorted (r := pyLe) ?_ ?_ ?_
  · exact (pySorted_perm l).trans
      ((List.perm_of_nodup_nodup_toFinset_eq h1 h2 h).trans
        (pySorted_perm l').symm)
  · exact List.sorted_insertionSort pyLe l
  · exact List.sorted_insertionSort pyLe l'

/-! ### The reconciler of `sync_packages` (lines 828-846)

The sync loop reads, per backend, `current = set(current_packages.get(...))`
and `primary = set(primary_packages.get(...))`, computes
`to_install = primary - current` and `to_remove = current - primary`, and
attempts the sorted installs then the sorted removes.  Python sets are
embedded as deduplicated lists of the enumerated elements. -/

/-- Embedding of `to_install = primary - current`: the set difference, as a
deduplicated list of `primary`'s enumeration. -/
def to_install (current primary : List String) : List String :=
  primary.dedup.filter (fun p => decide (p ∉ current))

/-- Embedding of `to_remove = current - primary`. -/
def to_remove (current primary : List String) : List String :=
  current.dedup.filter (fun p => decide (p ∉ primary))

theorem mem_to_install (current primary : List String) (p : String) :
    p ∈ to_install current primary ↔ p ∈ primary ∧ p ∉ current := by
  simp [to_install]

theorem mem_to_remove (current primary : List String) (p : String) :
    p ∈ to_remove current primary ↔ p ∈ current ∧ p ∉ primary := by
  simp [to_remove]

theorem nodup_to_install (current primary : List String) :
    (to_install current primary).Nodup :=
  (List.nodup_dedup primary).filter _

theorem nodup_to_remove (current primary : List String) :
    (to_remove current primary).Nodup :=
  (List.nodup_dedup current).filter _

theorem toFinset_to_install (current primary : List String) :
    (to_install current primary).toFinset =
      primary.toFinset \ current.toFinset := by
  ext p
  simp [mem_to_install]

theorem toFinset_to_remove (current primary : List String) :
    (to_remove current primary).toFinset =
      current.toFinset \ primary.toFinset := by
  ext p
  simp [mem_to_remove]

/-- The backend iteration order of the sync loop in `sync_packages`:
`for pkg_type in ["pipx", "brew", "flatpak"]`. -/
def syncOrder : List Backend := [.pipx, .brew, .flatpak]

/-- The sequence of install/remove actions attempted by the sync loop of
`sync_packages`, given the local snapshot `current` and the primary
machine record's inventory `primary` (backend-indexed enumerations of
package names).  For each backend, in the loop's order, every package of
`to_install` is attempted in sorted order, then every package of
`to_remove` in sorted order. -/
def syncActions (current primary : Backend → List String) : List Action :=
  syncOrder.foldl
    (fun acts pt =>
      acts
        ++ (pySorted (to_install (current pt) (primary pt))).map
            (fun p => (pt, Op.install, p))
        ++ (pySorted (to_remove (current pt) (primary pt))).map
            (fun p => (pt, Op.remove, p)))
    []

/-- Modelled from the spec's words (section 4.1): the action sequence that
processes backends in the given declared `order`, and within each backend
lists all installs in ascending lexical order before all removes in
ascending lexical order. -/
def orderedActions (order : List Backend)
    (current primary : Backend → List String) : List Action :=
  order.flatMap
    (fun pt =>
      (pySorted (to_install (current pt) (primary pt))).map
          (fun p => (pt, Op.install, p))
        ++ (pySorted (to_remove (current pt) (primary pt))).map
            (fun p => (pt, Op.remove, p)))

theorem foldl_append_eq_flatMap (f g : Backend → List Action) :
    ∀ (order : List Backend) (init : List Action),
      order.foldl (fun acts pt => acts ++ f pt ++ g pt) init =
        init ++ order.flatMap (fun pt => f pt ++ g pt)
  | [], init => by simp
  | pt :: rest, init => by
      rw [List.foldl_cons, foldl_append_eq_flatMap f g rest (init ++ f pt ++ g pt)]
      simp

/-- The code's action sequence is `orderedActions` for the code's backend
order `[pipx, brew, flatpak]`. -/
theorem syncActions_eq_orderedActions (current primary : Backend → List String) :
    syncActions current primary =
      orderedActions [Backend.pipx, Backend.brew, Backend.flatpak]
        current primary := by
  rw [syncActions, foldl_append_eq_flatMap, List.nil_append]
  rfl

example :
    syncActions (fun _ => [])
        (fun pt => match pt with
          | Backend.brew => ["a"]
          | Backend.flatpak => []
          | Backend.pipx => ["b"]) =
      [(Backend.pipx, Op.install, "b"), (Backend.brew, Op.install, "a")] := by
  decide

example :
    syncActions (fun _ => ["git", "wget"]) (fun _ => ["git", "vim"]) =
      ([Backend.pipx, Backend.brew, Backend.flatpak].flatMap
        (fun pt => [(pt, Op.install, "vim"), (pt, Op.remove, "wget")])) := by
  decide

/-- Claim C1: for every backend and every pair of package sets
(primary, local), the reconciliation in `sync_packages` computes the
packages to install as exactly the set difference primary minus local and
the packages to remove as exactly local minus primary, and both computed
sets are empty if and only if the two sets are equal. -/
theorem sync_diff_correct (current primary : List String) :
    (∀ p, p ∈ to_install current primary ↔ p ∈ primary ∧ p ∉ current) ∧
    (∀ p, p ∈ to_remove current primary ↔ p ∈ current ∧ p ∉ primary) ∧
    (to_install current primary).toFinset =
      primary.toFinset \ current.toFinset ∧
    (to_remove current primary).toFinset =
      current.toFinset \ primary.toFinset ∧
    (to_install current primary = [] ∧ to_remove current primary = [] ↔
      primary.toFinset = current.toFinset) := by
  refine ⟨mem_to_install current primary, mem_to_remove current primary,
    toFinset_to_install current primary, toFinset_to_remove current primary,
    ?_, ?_⟩
  · rintro ⟨h1, h2⟩
    apply Finset.Subset.antisymm
    · intro p hp
      by_contra hc
      have hmem : p ∈ to_install current primary := by
        rw [mem_to_install]
        simp only [List.mem_toFinset] at hp hc
        exact ⟨hp, hc⟩
      rw [h1] at hmem
      cases hmem
    · intro p hp
      by_contra hc
      have hmem : p ∈ to_remove current primary := by
        rw [mem_to_remove]
        simp only [List.mem_toFinset] at hp hc
        exact ⟨hp, hc⟩
      rw [h2] at hmem
      cases hmem
  · intro h
    constructor
    · have := toFinset_to_install current primary
      rw [h, Finset.sdiff_self] at this
      exact List.toFinset_eq_empty_iff _ |>.mp this
    · have := toFinset_to_remove current primary
      rw [h, Finset.sdiff_self] at this
      exact List.toFinset_eq_empty_iff _ |>.mp this

/-- Claim C2 counterexample: with an empty local machine and a primary that
has one brew package and one pipx package, the action sequence of
`sync_packages` does not follow the backend order brew, flatpak, pipx
claimed by the spec (the code iterates pipx, brew, flatpak). -/
theorem sync_action_order_cex :
    syncActions (fun _ => [])
        (fun pt => match pt with
          | Backend.brew => ["a"]
          | Backend.flatpak => []
          | Backend.pipx => ["b"]) ≠
      orderedActions [Backend.brew, Backend.flatpak, Backend.pipx]
        (fun _ => [])
        (fun pt => match pt with
          | Backend.brew => ["a"]
          | Backend.flatpak => []
          | Backend.pipx => ["b"]) := by
  decide

/-- Claim C2 (amended): for every pair of inventories, the action sequence
of `sync_packages` is deterministic and follows the fixed order: backends
processed in the order pipx, brew, flatpak (the order hard-coded in the
sync loop), and within each backend all installs in ascending lexical
order before all removes in ascending lexical order, regardless of the
sets' native iteration order. -/
theorem sync_action_order (current primary : Backend → List String) :
    syncActions current primary =
      orderedActions [Backend.pipx, Backend.brew, Backend.flatpak]
        current primary ∧
    (∀ pt : Backend,
      List.Sorted (· ≤ ·) (pySorted (to_install (current pt) (primary pt))) ∧
      List.Sorted (· ≤ ·) (pySorted (to_remove (current pt) (primary pt)))) ∧
    ∀ current' primary' : Backend → List String,
      (∀ pt, (current pt).toFinset = (current' pt).toFinset) →
      (∀ pt, (primary pt).toFinset = (primary' pt).toFinset) →
      syncActions current primary = syncActions current' primary' := by
  refine ⟨syncActions_eq_orderedActions current primary,
    fun pt => ⟨pySorted_sorted _, pySorted_sorted _⟩, ?_⟩
  intro current' primary' hc hp
  have keyi : ∀ pt, pySorted (to_install (current pt) (primary pt)) =
      pySorted (to_install (current' pt) (primary' pt)) := fun pt =>
    pySorted_eq_of_toFinset (nodup_to_install _ _) (nodup_to_install _ _)
      (by rw [toFinset_to_install, toFinset_to_install, hc, hp])
  have keyr : ∀ pt, pySorted (to_remove (current pt) (primary pt)) =
      pySorted (to_remove (current' pt) (primary' pt)) := fun pt =>
    pySorted_eq_of_toFinset (nodup_to_remove _ _) (nodup_to_remove _ _)
      (by rw [toFinset_to_remove, toFinset_to_remove, hc, hp])
  rw [syncActions_eq_orderedActions, syncActions_eq_orderedActions]
  simp only [orderedActions, keyi, keyr]

/-- Witness for the amended claim C2: two concretely different enumerations
of the same inventories produce the same action sequence. -/
theorem sync_action_order_witness :
    syncActions (fun _ => ["b", "a", "b"]) (fun _ => ["c", "a"]) =
      syncActions (fun _ => ["a", "b"]) (fun _ => ["c", "c", "a"]) :=
  (sync_action_order _ _).2.2 _ _ (fun pt => by cases pt <;> decide)
    (fun pt => by cases pt <;> decide)

/-! ### The connectivity probe `check_internet_connection` (lines 19-69)

For each host the code runs one `ping`.  The external outcome of one ping
is: the subprocess raised (`SubprocessError`), or it ran and returned an
exit code together with the result of the `try`-parse of the `time=` field
of its stdout (`none` when the parse raises `IndexError`/`ValueError`).
The loop keeps the smallest parsed latency and the function returns
`(best_latency is not None, best_latency)`. -/

/-- The externally observable outcome of one `subprocess.run(["ping", ...])`
call: an exception, or a return code plus the parsed `time=` value. -/
inductive PingRes
  | procError
  | ran (returncode : ℤ) (timing : Option ℚ)
  deriving DecidableEq, Repr

/-- One iteration of the probe loop: keep `best` unless the host ran with
return code 0 and a parseable timing smaller than the best so far. -/
def pingFoldStep (best : Option ℚ) (p : PingRes) : Option ℚ :=
  match p with
  | .procError => best
  | .ran rc timing =>
      if rc = 0 then
        match timing with
        | none => best
        | some latency =>
            match best with
            | none => some latency
            | some b => if latency < b then some latency else best
      else best

/-- The `best_latency` accumulated by the loop of
`check_internet_connection`. -/
def bestLatency (pings : List PingRes) : Option ℚ :=
  pings.foldl pingFoldStep none

/-- Embedding of `check_internet_connection`: returns
`(best_latency is not None, best_latency)`. -/
def check_internet_connection (pings : List PingRes) : Bool × Option ℚ :=
  ((bestLatency pings).isSome, bestLatency pings)

/-- The latency a single host contributes: its parsed timing if it ran
with return code 0 and the timing parsed, otherwise nothing. -/
def parsedLatency : PingRes → Option ℚ
  | .ran rc (some l) => if rc = 0 then some l else none
  | _ => none

/-- The latencies of the hosts that responded with a parseable timing, in
probe order. -/
def respLatencies (pings : List PingRes) : List ℚ :=
  pings.filterMap parsedLatency

/-- Whether a host responded to its ping (return code 0), whatever its
reported timing parsed to. -/
def respondedOk : PingRes → Bool
  | .ran rc _ => decide (rc = 0)
  | _ => false

theorem foldl_pingFoldStep_some :
    ∀ (pings : List PingRes) (b : ℚ),
      pings.foldl pingFoldStep (some b) =
        some ((respLatencies pings).foldl min b)
  | [], b => rfl
  | p :: rest, b => by
      cases p with
      | procError =>
          simpa [respLatencies, parsedLatency] using
            foldl_pingFoldStep_some rest b
      | ran rc timing =>
          rcases eq_or_ne rc 0 with hrc | hrc
          · subst hrc
            cases timing with
            | none =>
                simpa [respLatencies, parsedLatency, pingFoldStep] using
                  foldl_pingFoldStep_some rest b
            | some l =>
                have hstep : pingFoldStep (some b) (PingRes.ran 0 (some l)) =
                    some (min b l) := by
                  simp only [pingFoldStep, if_pos rfl]
                  rcases lt_or_le l b with h | h
                  · simp [if_pos h, min_eq_right h.le]
                  · simp [if_neg (not_lt.mpr h), min_eq_left h]
                rw [List.foldl_cons, hstep, foldl_pingFoldStep_some rest (min b l)]
                simp [respLatencies, parsedLatency]
          · simp only [List.foldl_cons, pingFoldStep, if_neg hrc]
            rw [foldl_pingFoldStep_some rest b]
            cases timing <;>
              simp [respLatencies, parsedLatency, if_neg hrc]

theorem bestLatency_eq :
    ∀ pings : List PingRes, bestLatency pings = (respLatencies pings).min?
  | [] => rfl
  | p :: rest => by
      cases p with
      | procError =>
          simpa [respLatencies, parsedLatency, bestLatency] using
            bestLatency_eq rest
      | ran rc timing =>
          rcases eq_or_ne rc 0 with hrc | hrc
          · subst hrc
            cases timing with
            | none =>
                simpa [respLatencies, parsedLatency, bestLatency, pingFoldStep]
                  using bestLatency_eq rest
            | some l =>
                have : bestLatency (PingRes.ran 0 (some l) :: rest) =
                    rest.foldl pingFoldStep (some l) := by
                  simp [bestLatency, pingFoldStep]
                rw [this, foldl_pingFoldStep_some rest l]
                simp [respLatencies, parsedLatency, List.min?]
          · have : bestLatency (PingRes.ran rc timing :: rest) =
                bestLatency rest := by
              simp [bestLatency, pingFoldStep, if_neg hrc]
            rw [this, bestLatency_eq rest]
            cases timing <;>
              simp [respLatencies, parsedLatency, if_neg hrc]

theorem foldl_min_le_init (l : List ℚ) : ∀ b : ℚ, l.foldl min b ≤ b := by
  induction l with
  | nil => intro b; exact le_rfl
  | cons x rest ih =>
      intro b
      exact le_trans (ih (min b x)) (min_le_left b x)

theorem foldl_min_le_mem (l : List ℚ) :
    ∀ (b y : ℚ), y ∈ l → l.foldl min b ≤ y := by
  induction l with
  | nil => intro b y hy; cases hy
  | cons x rest ih =>
      intro b y hy
      rcases List.mem_cons.mp hy with rfl | hy
      · exact le_trans (foldl_min_le_init rest (min b y)) (min_le_right b y)
      · exact ih (min b x) y hy

theorem foldl_min_mem (l : List ℚ) :
    ∀ b : ℚ, l.foldl min b = b ∨ l.foldl min b ∈ l := by
  induction l with
  | nil => intro b; exact Or.inl rfl
  | cons x rest ih =>
      intro b
      rcases ih (min b x) with h | h
      · rcases min_choice b x with hmin | hmin
        · rw [List.foldl_cons, h, hmin]
          exact Or.inl rfl
        · rw [List.foldl_cons, h, hmin]
          exact Or.inr (List.mem_cons_self x rest)
      · exact Or.inr (List.mem_cons_of_mem x h)

theorem min?_spec (l : List ℚ) (x : ℚ) (h : l.min? = some x) :
    x ∈ l ∧ ∀ y ∈ l, x ≤ y := by
  cases l with
  | nil => cases h
  | cons a rest =>
      have hx : rest.foldl min a = x := by
        simpa [List.min?] using h
      constructor
      · rcases foldl_min_mem rest a with h' | h'
        · rw [hx] at h'
          exact h' ▸ List.mem_cons_self a rest
        · rw [hx] at h'
          exact List.mem_cons_of_mem a h'
      · intro y hy
        rcases List.mem_cons.mp hy with rfl | hy
        · exact hx ▸ foldl_min_le_init rest y
        · exact hx ▸ foldl_min_le_mem rest a y hy

/-- Claim C6 counterexample: one host whose ping succeeds (return code 0)
but whose output has no parseable `time=` field.  The host responded, yet
the probe reports unreachable, refuting "reachable if and only if at least
one host responded". -/
theorem check_internet_connection_cex :
    ([PingRes.ran 0 none].any respondedOk) = true ∧
    (check_internet_connection [PingRes.ran 0 none]).1 = false := by
  decide

/-- Claim C6 (amended): the probe reports reachable iff at least one host
responded with a parseable timing; the reported latency is the minimum
round-trip time across all such hosts; and a host that errors, times out,
returns a non-zero exit, or returns an unparseable timing is merely
excluded from the minimum: dropping it from the host list never changes
the probe's result. -/
theorem check_internet_connection_correct (pings : List PingRes) :
    ((check_internet_connection pings).1 = true ↔
      respLatencies pings ≠ []) ∧
    (check_internet_connection pings).2 = (respLatencies pings).min? ∧
    (∀ x, (check_internet_connection pings).2 = some x →
      x ∈ respLatencies pings ∧ ∀ y ∈ respLatencies pings, x ≤ y) ∧
    (∀ pre p post, pings = pre ++ p :: post → parsedLatency p = none →
      check_internet_connection pings =
        check_internet_connection (pre ++ post)) := by
  refine ⟨?_, ?_, ?_, ?_⟩
  · rw [check_internet_connection]
    simp only [bestLatency_eq]
    cases hresp : respLatencies pings with
    | nil => simp
    | cons a rest => simp [List.min?]
  · rw [check_internet_connection]
    simp only [bestLatency_eq]
  · intro x hx
    rw [check_internet_connection] at hx
    simp only [bestLatency_eq] at hx
    exact min?_spec _ x hx
  · intro pre p post hsplit hnone
    subst hsplit
    have : respLatencies (pre ++ p :: post) = respLatencies (pre ++ post) := by
      simp [respLatencies, List.filterMap_append, List.filterMap_cons, hnone]
    rw [check_internet_connection, check_internet_connection]
    simp only [bestLatency_eq, this]

/-! ### The update orchestrator `update_all_packages` (lines 679-765)

The orchestrator probes connectivity, derives a timeout budget, runs a
first bulk-upgrade pass over the present backends, and retries the
timed-out backends once after a second probe.  Its external world is an
`UpdEnv`: the outcomes of the two probes, which backend binaries
`shutil.which` finds, and what `update_packages` returns for a backend at
a given timeout (`(success, is_timeout)`).

The embedding returns `none` exactly when the Python code would raise a
`TypeError` by formatting / dividing a `None` latency after the probe
reported connected; otherwise it returns the function's Boolean result
plus a trace: the `update_packages` calls made (backend, timeout), the
final `results` dict, the `timeout_failures` list, and whether the retry
pass ran. -/

/-- Python's `int(...)` on a rational: truncation toward zero. -/
def pyTrunc (q : ℚ) : ℤ := q.num.tdiv q.den

/-- Embedding of `base_timeout = max(60, int(latency / 10))`. -/
def base_timeout (latency : ℚ) : ℤ := max 60 (pyTrunc (latency / 10))

/-- The external world of one `update_all_packages` run. -/
structure UpdEnv where
  probe1 : List PingRes
  probe2 : List PingRes
  which : Backend → Bool
  upd : Backend → ℤ → Bool × Bool

/-- The observable outcome of an `update_all_packages` run. -/
structure UpdTrace where
  retval : Bool
  calls : List (Backend × ℤ)
  results : List (Backend × Bool)
  timeoutFailures : List Backend
  retried : Bool
  deriving DecidableEq, Repr

/-- Python dict assignment `results[k] = v` on an insertion-ordered
association list: overwrite in place if the key is present, else append. -/
def setKey (m : List (Backend × Bool)) (k : Backend) (v : Bool) :
    List (Backend × Bool) :=
  if m.any (fun e => decide (e.1 = k)) then
    m.map (fun e => if e.1 = k then (k, v) else e)
  else m ++ [(k, v)]

/-- Python dict lookup on an insertion-ordered association list. -/
def assocFind (m : List (Backend × Bool)) (k : Backend) : Option Bool :=
  match m with
  | [] => none
  | e :: rest => if e.1 = k then some e.2 else assocFind rest k

/-- The backend order of `update_all_packages`:
`pkg_types = ["brew", "flatpak", "pipx"]`. -/
def pkgTypes : List Backend := [.brew, .flatpak, .pipx]

/-- Intermediate state of the first pass: the `results` dict, the
`timeout_failures` list, and the `update_packages` calls made. -/
structure FirstPass where
  results : List (Backend × Bool)
  timeoutFailures : List Backend
  calls : List (Backend × ℤ)
  deriving DecidableEq, Repr

/-- One iteration of the first pass: skip the backend if its binary is
absent; otherwise call `update_packages` with the base timeout and record
a timeout in `timeout_failures` or the success flag in `results`. -/
def fpStep (env : UpdEnv) (baseTimeout : ℤ) (st : FirstPass) (pt : Backend) :
    FirstPass :=
  if env.which pt then
    if (env.upd pt baseTimeout).2 then
      ⟨st.results, st.timeoutFailures ++ [pt], st.calls ++ [(pt, baseTimeout)]⟩
    else
      ⟨setKey st.results pt (env.upd pt baseTimeout).1, st.timeoutFailures,
        st.calls ++ [(pt, baseTimeout)]⟩
  else st

/-- The first pass of `update_all_packages` over `pkg_types`. -/
def firstPass (env : UpdEnv) (baseTimeout : ℤ) : FirstPass :=
  pkgTypes.foldl (fpStep env baseTimeout) ⟨[], [], []⟩

/-- One iteration of the retry loop: call `update_packages` with the
extended timeout and store the success flag (the timeout flag is
discarded). -/
def retryStep (env : UpdEnv) (retryTimeout : ℤ)
    (st : List (Backend × Bool) × List (Backend × ℤ)) (pt : Backend) :
    List (Backend × Bool) × List (Backend × ℤ) :=
  (setKey st.1 pt (env.upd pt retryTimeout).1, st.2 ++ [(pt, retryTimeout)])

/-- The `failed` list: backends whose entry in `results` is `False`. -/
def failedOf (results : List (Backend × Bool)) : List Backend :=
  (results.filter (fun e => !e.2)).map (fun e => e.1)

/-- The part of `update_all_packages` after the first probe reported
connected with the given latency. -/
def updateCore (env : UpdEnv) (latency : ℚ) : Option UpdTrace :=
  let fp := firstPass env (base_timeout latency)
  if fp.timeoutFailures = [] then
    some ⟨(failedOf fp.results).isEmpty, fp.calls, fp.results,
      fp.timeoutFailures, false⟩
  else
    match check_internet_connection env.probe2 with
    | (false, _) => some ⟨false, fp.calls, fp.results, fp.timeoutFailures, false⟩
    | (true, none) => none
    | (true, some newLatency) =>
        if fp.results.any (fun e => e.2) || decide (newLatency < 1000) then
          let rs := fp.timeoutFailures.foldl
            (retryStep env (base_timeout latency * 3)) (fp.results, fp.calls)
          some ⟨(failedOf rs.1).isEmpty, rs.2, rs.1, fp.timeoutFailures, true⟩
        else
          let rs := fp.timeoutFailures.foldl (fun m pt => setKey m pt false)
            fp.results
          some ⟨(failedOf rs).isEmpty, fp.calls, rs, fp.timeoutFailures, false⟩

/-- Embedding of `update_all_packages`. -/
def update_all_packages (env : UpdEnv) : Option UpdTrace :=
  match check_internet_connection env.probe1 with
  | (false, _) => some ⟨false, [], [], [], false⟩
  | (true, none) => none
  | (true, some latency) => updateCore env latency

/-- First-pass `results` in closed form: one entry per present backend that
did not time out, holding its success flag, in backend order. -/
def fpResults (env : UpdEnv) (baseTimeout : ℤ) : List (Backend × Bool) :=
  (pkgTypes.filter (fun pt => env.which pt && !(env.upd pt baseTimeout).2)).map
    (fun pt => (pt, (env.upd pt baseTimeout).1))

/-- First-pass `timeout_failures` in closed form. -/
def fpTimeouts (env : UpdEnv) (baseTimeout : ℤ) : List Backend :=
  pkgTypes.filter (fun pt => env.which pt && (env.upd pt baseTimeout).2)

/-- First-pass calls in closed form: one call per present backend, at the
base timeout. -/
def fpCalls (env : UpdEnv) (baseTimeout : ℤ) : List (Backend × ℤ) :=
  (pkgTypes.filter (fun pt => env.which pt)).map (fun pt => (pt, baseTimeout))

theorem setKey_of_forall_ne (m : List (Backend × Bool)) (k : Backend) (v : Bool)
    (h : ∀ e ∈ m, e.1 ≠ k) : setKey m k v = m ++ [(k, v)] := by
  rw [setKey, if_neg]
  intro hany
  rw [List.any_eq_true] at hany
  obtain ⟨e, he, hd⟩ := hany
  exact h e he (of_decide_eq_true hd)

theorem foldl_fpStep (env : UpdEnv) (b : ℤ) :
    ∀ (pts : List Backend) (st : FirstPass),
      (∀ pt ∈ pts, ∀ e ∈ st.results, e.1 ≠ pt) → pts.Nodup →
      pts.foldl (fpStep env b) st =
        ⟨st.results
            ++ (pts.filter (fun pt => env.which pt && !(env.upd pt b).2)).map
              (fun pt => (pt, (env.upd pt b).1)),
          st.timeoutFailures
            ++ pts.filter (fun pt => env.which pt && (env.upd pt b).2),
          st.calls
            ++ (pts.filter (fun pt => env.which pt)).map (fun pt => (pt, b))⟩
  | [], st => by simp
  | pt :: rest, st => by
      intro hfresh hnodup
      obtain ⟨hpt_rest, hnodup_rest⟩ := List.nodup_cons.mp hnodup
      rw [List.foldl_cons]
      by_cases hw : env.which pt = true
      · by_cases ht : (env.upd pt b).2 = true
        · have hstep : fpStep env b st pt =
              ⟨st.results, st.timeoutFailures ++ [pt], st.calls ++ [(pt, b)]⟩ := by
            rw [fpStep, if_pos hw, if_pos ht]
          rw [hstep, foldl_fpStep env b rest
            ⟨st.results, st.timeoutFailures ++ [pt], st.calls ++ [(pt, b)]⟩
            (fun q hq e he => hfresh q (List.mem_cons_of_mem pt hq) e he)
            hnodup_rest]
          simp [List.filter_cons, hw, ht, List.append_assoc]
        · have hv : setKey st.results pt (env.upd pt b).1 =
              st.results ++ [(pt, (env.upd pt b).1)] :=
            setKey_of_forall_ne _ _ _
              (fun e he => hfresh pt (List.mem_cons_self pt rest) e he)
          have hstep : fpStep env b st pt =
              ⟨st.results ++ [(pt, (env.upd pt b).1)], st.timeoutFailures,
                st.calls ++ [(pt, b)]⟩ := by
            rw [fpStep, if_pos hw, if_neg ht, hv]
          rw [hstep, foldl_fpStep env b rest
            ⟨st.results ++ [(pt, (env.upd pt b).1)], st.timeoutFailures,
              st.calls ++ [(pt, b)]⟩
            (fun q hq e he => by
              rcases List.mem_append.mp he with he' | he'
              · exact hfresh q (List.mem_cons_of_mem pt hq) e he'
              · rcases List.mem_singleton.mp he' with rfl
                intro hq_eq
                have hpq : pt = q := hq_eq
                exact hpt_rest (hpq ▸ hq))
            hnodup_rest]
          simp [List.filter_cons, hw, ht, List.append_assoc]
      · have hstep : fpStep env b st pt = st := by
          rw [fpStep, if_neg hw]
        rw [hstep, foldl_fpStep env b rest st
          (fun q hq e he => hfresh q (List.mem_cons_of_mem pt hq) e he)
          hnodup_rest]
        simp [List.filter_cons, hw]

theorem firstPass_eq (env : UpdEnv) (b : ℤ) :
    firstPass env b = ⟨fpResults env b, fpTimeouts env b, fpCalls env b⟩ := by
  rw [firstPass, foldl_fpStep env b pkgTypes ⟨[], [], []⟩
    (fun pt _ e he => absurd he (List.not_mem_nil e)) (by decide)]
  simp [fpResults, fpTimeouts, fpCalls]

theorem foldl_retryStep (env : UpdEnv) (rt : ℤ) :
    ∀ (touts : List Backend)
      (st : List (Backend × Bool) × List (Backend × ℤ)),
      (∀ pt ∈ touts, ∀ e ∈ st.1, e.1 ≠ pt) → touts.Nodup →
      touts.foldl (retryStep env rt) st =
        (st.1 ++ touts.map (fun pt => (pt, (env.upd pt rt).1)),
          st.2 ++ touts.map (fun pt => (pt, rt)))
  | [], st => by simp
  | pt :: rest, st => by
      intro hfresh hnodup
      obtain ⟨hpt_rest, hnodup_rest⟩ := List.nodup_cons.mp hnodup
      have hv : setKey st.1 pt (env.upd pt rt).1 =
          st.1 ++ [(pt, (env.upd pt rt).1)] :=
        setKey_of_forall_ne _ _ _
          (fun e he => hfresh pt (List.mem_cons_self pt rest) e he)
      rw [List.foldl_cons, retryStep, hv, foldl_retryStep env rt rest
        (st.1 ++ [(pt, (env.upd pt rt).1)], st.2 ++ [(pt, rt)])
        (fun q hq e he => by
          rcases List.mem_append.mp he with he' | he'
          · exact hfresh q (List.mem_cons_of_mem pt hq) e he'
          · rcases List.mem_singleton.mp he' with rfl
            intro hq_eq
            have hpq : pt = q := hq_eq
            exact hpt_rest (hpq ▸ hq))
        hnodup_rest]
      simp [List.append_assoc]

theorem foldl_setKey_false :
    ∀ (touts : List Backend) (m : List (Backend × Bool)),
      (∀ pt ∈ touts, ∀ e ∈ m, e.1 ≠ pt) → touts.Nodup →
      touts.foldl (fun m pt => setKey m pt false) m =
        m ++ touts.map (fun pt => (pt, false))
  | [], m => by simp
  | pt :: rest, m => by
      intro hfresh hnodup
      obtain ⟨hpt_rest, hnodup_rest⟩ := List.nodup_cons.mp hnodup
      have hv : setKey m pt false = m ++ [(pt, false)] :=
        setKey_of_forall_ne _ _ _
          (fun e he => hfresh pt (List.mem_cons_self pt rest) e he)
      rw [List.foldl_cons, hv, foldl_setKey_false rest (m ++ [(pt, false)])
        (fun q hq e he => by
          rcases List.mem_append.mp he with he' | he'
          · exact hfresh q (List.mem_cons_of_mem pt hq) e he'
          · rcases List.mem_singleton.mp he' with rfl
            intro hq_eq
            have hpq : pt = q := hq_eq
            exact hpt_rest (hpq ▸ hq))
        hnodup_rest]
      simp [List.append_assoc]

theorem fp_disjoint (env : UpdEnv) (b : ℤ) :
    ∀ pt ∈ fpTimeouts env b, ∀ e ∈ fpResults env b, e.1 ≠ pt := by
  intro pt hpt e he
  rw [fpTimeouts, List.mem_filter] at hpt
  rw [fpResults, List.mem_map] at he
  obtain ⟨q, hq, rfl⟩ := he
  rw [List.mem_filter] at hq
  intro hq_eq
  simp only at hq_eq
  subst hq_eq
  rw [Bool.and_eq_true] at hpt hq
  have h1 := hpt.2.2
  have h2 := hq.2.2
  rw [h1] at h2
  simp at h2

theorem fpTimeouts_nodup (env : UpdEnv) (b : ℤ) : (fpTimeouts env b).Nodup :=
  List.Nodup.filter _ (by decide)

theorem assocFind_append_of_some {m m' : List (Backend × Bool)} {k : Backend}
    {v : Bool} (h : assocFind m k = some v) :
    assocFind (m ++ m') k = some v := by
  induction m with
  | nil => cases h
  | cons e rest ih =>
      rw [assocFind] at h
      rw [List.cons_append, assocFind]
      by_cases he : e.1 = k
      · rw [if_pos he] at h ⊢
        exact h
      · rw [if_neg he] at h ⊢
        exact ih h

theorem assocFind_append_of_none {m m' : List (Backend × Bool)} {k : Backend}
    (h : assocFind m k = none) :
    assocFind (m ++ m') k = assocFind m' k := by
  induction m with
  | nil => rfl
  | cons e rest ih =>
      rw [assocFind] at h
      rw [List.cons_append, assocFind]
      by_cases he : e.1 = k
      · rw [if_pos he] at h
        cases h
      · rw [if_neg he] at h ⊢
        exact ih h

theorem assocFind_none_of_forall_ne {m : List (Backend × Bool)} {k : Backend}
    (h : ∀ e ∈ m, e.1 ≠ k) : assocFind m k = none := by
  induction m with
  | nil => rfl
  | cons e rest ih =>
      rw [assocFind, if_neg (h e (List.mem_cons_self e rest))]
      exact ih (fun e' he' => h e' (List.mem_cons_of_mem e he'))

theorem assocFind_map (f : Backend → Bool) :
    ∀ (l : List Backend) (k : Backend),
      assocFind (l.map (fun q => (q, f q))) k =
        if k ∈ l then some (f k) else none
  | [], k => by simp [assocFind]
  | q :: rest, k => by
      rw [List.map_cons, assocFind]
      by_cases hq : q = k
      · subst hq
        simp
      · rw [if_neg hq, assocFind_map f rest k]
        by_cases hk : k ∈ rest
        · rw [if_pos hk, if_pos (List.mem_cons_of_mem q hk)]
        · rw [if_neg hk, if_neg (fun hmem => by
            rcases List.mem_cons.mp hmem with h' | h'
            · exact hq h'.symm
            · exact hk h')]

theorem isEmpty_false_of_mem {α : Type} {l : List α} {x : α} (h : x ∈ l) :
    l.isEmpty = false := by
  cases l with
  | nil => cases h
  | cons a t => rfl

theorem mem_failedOf {results : List (Backend × Bool)} {k : Backend}
    (h : (k, false) ∈ results) : k ∈ failedOf results := by
  rw [failedOf, List.mem_map]
  exact ⟨(k, false), List.mem_filter.mpr ⟨h, rfl⟩, rfl⟩

theorem filter_map_const_nil (b : ℤ) :
    ∀ (l : List Backend) (k : Backend), k ∉ l →
      (l.map (fun q => (q, b))).filter (fun c => decide (c.1 = k)) = []
  | [], k => fun _ => rfl
  | q :: rest, k => fun hk => by
      have hq : ¬ q = k := fun h => hk (h ▸ List.mem_cons_self q rest)
      rw [List.map_cons, List.filter_cons]
      simp only [decide_eq_true_eq, hq, if_false]
      exact filter_map_const_nil b rest k
        (fun h => hk (List.mem_cons_of_mem q h))

theorem filter_map_const_self (b : ℤ) :
    ∀ (l : List Backend) (k : Backend), l.Nodup → k ∈ l →
      (l.map (fun q => (q, b))).filter (fun c => decide (c.1 = k)) = [(k, b)]
  | [], k => fun _ hk => absurd hk (List.not_mem_nil k)
  | q :: rest, k => fun hnodup hk => by
      obtain ⟨hq_rest, hnodup_rest⟩ := List.nodup_cons.mp hnodup
      rw [List.map_cons, List.filter_cons]
      by_cases hq : q = k
      · subst hq
        rw [if_pos (by simp)]
        rw [filter_map_const_nil b rest q hq_rest]
      · simp only [decide_eq_true_eq, hq, if_false]
        exact filter_map_const_self b rest k hnodup_rest
          (by rcases List.mem_cons.mp hk with h' | h'
              · exact absurd h'.symm hq
              · exact h')

theorem check_fst_eq_isSome (pings : List PingRes) :
    (check_internet_connection pings).1 =
      ((check_internet_connection pings).2).isSome := rfl

theorem updateCore_no_timeout (env : UpdEnv) (latency : ℚ)
    (hT : fpTimeouts env (base_timeout latency) = []) :
    updateCore env latency =
      some ⟨(failedOf (fpResults env (base_timeout latency))).isEmpty,
        fpCalls env (base_timeout latency),
        fpResults env (base_timeout latency), [], false⟩ := by
  rw [updateCore, firstPass_eq]
  simp [hT]

theorem updateCore_probe2_down (env : UpdEnv) (latency : ℚ)
    (hT : fpTimeouts env (base_timeout latency) ≠ [])
    (h2 : (check_internet_connection env.probe2).1 = false) :
    updateCore env latency =
      some ⟨false, fpCalls env (base_timeout latency),
        fpResults env (base_timeout latency),
        fpTimeouts env (base_timeout latency), false⟩ := by
  rcases hc : check_internet_connection env.probe2 with ⟨b2, l2⟩
  rw [hc] at h2
  simp only at h2
  subst h2
  rw [updateCore, firstPass_eq]
  simp [hT, hc]

theorem updateCore_retry (env : UpdEnv) (latency newLatency : ℚ)
    (hT : fpTimeouts env (base_timeout latency) ≠ [])
    (h2 : check_internet_connection env.probe2 = (true, some newLatency))
    (hcond : ((fpResults env (base_timeout latency)).any (fun e => e.2)
        || decide (newLatency < 1000)) = true) :
    updateCore env latency = some
      ⟨(failedOf (fpResults env (base_timeout latency)
          ++ (fpTimeouts env (base_timeout latency)).map
            (fun pt => (pt, (env.upd pt (base_timeout latency * 3)).1)))).isEmpty,
        fpCalls env (base_timeout latency)
          ++ (fpTimeouts env (base_timeout latency)).map
            (fun pt => (pt, base_timeout latency * 3)),
        fpResults env (base_timeout latency)
          ++ (fpTimeouts env (base_timeout latency)).map
            (fun pt => (pt, (env.upd pt (base_timeout latency * 3)).1)),
        fpTimeouts env (base_timeout latency), true⟩ := by
  have hfold := foldl_retryStep env (base_timeout latency * 3)
    (fpTimeouts env (base_timeout latency))
    (fpResults env (base_timeout latency), fpCalls env (base_timeout latency))
    (fun pt hpt e he => fp_disjoint env (base_timeout latency) pt hpt e he)
    (fpTimeouts_nodup env (base_timeout latency))
  rw [updateCore, firstPass_eq]
  simp [hT, h2, hcond, hfold]

theorem updateCore_no_retry (env : UpdEnv) (latency newLatency : ℚ)
    (hT : fpTimeouts env (base_timeout latency) ≠ [])
    (h2 : check_internet_connection env.probe2 = (true, some newLatency))
    (hcond : ((fpResults env (base_timeout latency)).any (fun e => e.2)
        || decide (newLatency < 1000)) = false) :
    updateCore env latency = some
      ⟨(failedOf (fpResults env (base_timeout latency)
          ++ (fpTimeouts env (base_timeout latency)).map
            (fun pt => (pt, false)))).isEmpty,
        fpCalls env (base_timeout latency),
        fpResults env (base_timeout latency)
          ++ (fpTimeouts env (base_timeout latency)).map
            (fun pt => (pt, false)),
        fpTimeouts env (base_timeout latency), false⟩ := by
  have hfold := foldl_setKey_false (fpTimeouts env (base_timeout latency))
    (fpResults env (base_timeout latency))
    (fun pt hpt e he => fp_disjoint env (base_timeout latency) pt hpt e he)
    (fpTimeouts_nodup env (base_timeout latency))
  rw [updateCore, firstPass_eq]
  simp [hT, h2, hcond, hfold]

theorem update_eq_updateCore (env : UpdEnv) (latency : ℚ)
    (h1 : check_internet_connection env.probe1 = (true, some latency)) :
    update_all_packages env = updateCore env latency := by
  rw [update_all_packages, h1]

theorem updateCore_isSome (env : UpdEnv) (latency : ℚ) :
    (updateCore env latency).isSome = true := by
  by_cases hT : fpTimeouts env (base_timeout latency) = []
  · rw [updateCore_no_timeout env latency hT]
    rfl
  · rcases hc : check_internet_connection env.probe2 with ⟨b, l⟩
    cases b with
    | false =>
        rw [updateCore_probe2_down env latency hT (by rw [hc])]
        rfl
    | true =>
        cases l with
        | none =>
            have := check_fst_eq_isSome env.probe2
            rw [hc] at this
            cases this
        | some newLatency =>
            by_cases hcond : ((fpResults env (base_timeout latency)).any
                (fun e => e.2) || decide (newLatency < 1000)) = true
            · rw [updateCore_retry env latency newLatency hT hc hcond]
              rfl
            · rw [updateCore_no_retry env latency newLatency hT hc
                (Bool.not_eq_true _ ▸ hcond)]
              rfl

/-- Claim C5: if the initial connectivity probe reports unreachable,
`update_all_packages` returns `False` and makes zero `update_packages`
calls (trace: empty call list, empty results, no retry). -/
theorem update_aborts_unreachable (env : UpdEnv)
    (h : (check_internet_connection env.probe1).1 = false) :
    update_all_packages env = some ⟨false, [], [], [], false⟩ := by
  have hc : check_internet_connection env.probe1 =
      (false, (check_internet_connection env.probe1).2) := by
    rw [← h]
  rw [update_all_packages, hc]

/-- Witness for claim C5: all three pings fail, so the run aborts with no
backend calls. -/
theorem update_aborts_unreachable_witness :
    (check_internet_connection
        [PingRes.procError, PingRes.procError, PingRes.procError]).1 = false ∧
    update_all_packages
        ⟨[PingRes.procError, PingRes.procError, PingRes.procError], [],
          fun _ => true, fun _ _ => (true, false)⟩ =
      some ⟨false, [], [], [], false⟩ :=
  ⟨by decide, update_aborts_unreachable _ (by decide)⟩

/-- Claim C10: the probe reports reachable iff its latency is not `None`,
and consequently `update_all_packages` never reaches the branch that would
format or divide a `None` latency (its embedding, which returns `none`
exactly on that `TypeError`, is total). -/
theorem probe_latency_consistent :
    (∀ pings : List PingRes,
      ((check_internet_connection pings).1 = true ↔
        (check_internet_connection pings).2 ≠ none)) ∧
    ∀ env : UpdEnv, (update_all_packages env).isSome = true := by
  constructor
  · intro pings
    rw [check_fst_eq_isSome]
    exact Option.isSome_iff_ne_none
  · intro env
    rcases hc : check_internet_connection env.probe1 with ⟨b, l⟩
    cases b with
    | false =>
        have hfst : (check_internet_connection env.probe1).1 = false := by
          rw [hc]
        rw [update_aborts_unreachable env hfst]
        rfl
    | true =>
        cases l with
        | none =>
            have := check_fst_eq_isSome env.probe1
            rw [hc] at this
            cases this
        | some latency =>
            rw [update_eq_updateCore env latency hc]
            exact updateCore_isSome env latency

/-- Claim C3: a backend whose first-pass upgrade returns a non-timeout
failure is recorded as `False` in `results`, is never retried (it is not in
`timeout_failures` and is called exactly once, at the base timeout), and
makes the overall result `False`; moreover every retry call (a call at the
tripled timeout) is for a backend that timed out in the first pass. -/
theorem failure_not_retried (env : UpdEnv) (latency : ℚ) (pt : Backend)
    (h1 : check_internet_connection env.probe1 = (true, some latency))
    (hwhich : env.which pt = true)
    (hupd : env.upd pt (base_timeout latency) = (false, false)) :
    ∀ trace, update_all_packages env = some trace →
      pt ∉ trace.timeoutFailures ∧
      assocFind trace.results pt = some false ∧
      trace.calls.filter (fun c => decide (c.1 = pt)) =
        [(pt, base_timeout latency)] ∧
      trace.retval = false ∧
      ∀ c ∈ trace.calls, c.2 = base_timeout latency ∨
        (c.2 = base_timeout latency * 3 ∧ c.1 ∈ trace.timeoutFailures) := by
  intro trace htrace
  rw [update_eq_updateCore env latency h1] at htrace
  have hmem_pt : pt ∈ pkgTypes := by cases pt <;> decide
  have hnot_t : pt ∉ fpTimeouts env (base_timeout latency) := by
    rw [fpTimeouts, List.mem_filter]
    rintro ⟨-, hcondn⟩
    rw [hwhich, hupd] at hcondn
    simp at hcondn
  have hfilter_mem : pt ∈ pkgTypes.filter
      (fun q => env.which q && !(env.upd q (base_timeout latency)).2) := by
    rw [List.mem_filter]
    refine ⟨hmem_pt, ?_⟩
    rw [hwhich, hupd]
    rfl
  have hfind : assocFind (fpResults env (base_timeout latency)) pt =
      some false := by
    rw [fpResults, assocFind_map, if_pos hfilter_mem, hupd]
  have hmem_false : (pt, false) ∈ fpResults env (base_timeout latency) := by
    rw [fpResults, List.mem_map]
    exact ⟨pt, hfilter_mem, by rw [hupd]⟩
  have hwhich_mem : pt ∈ pkgTypes.filter (fun q => env.which q) :=
    List.mem_filter.mpr ⟨hmem_pt, hwhich⟩
  have hwhich_nodup : (pkgTypes.filter (fun q => env.which q)).Nodup :=
    List.Nodup.filter _ (by decide)
  have hcalls_base : (fpCalls env (base_timeout latency)).filter
      (fun c => decide (c.1 = pt)) = [(pt, base_timeout latency)] := by
    rw [fpCalls]
    exact filter_map_const_self _ _ _ hwhich_nodup hwhich_mem
  have hcalls_shape : ∀ c ∈ fpCalls env (base_timeout latency),
      c.2 = base_timeout latency := by
    intro c hcr
    rw [fpCalls, List.mem_map] at hcr
    obtain ⟨q, -, rfl⟩ := hcr
    rfl
  by_cases hT : fpTimeouts env (base_timeout latency) = []
  · rw [updateCore_no_timeout env latency hT] at htrace
    have hA := Option.some.inj htrace
    subst hA
    refine ⟨List.not_mem_nil pt, hfind, hcalls_base, ?_, ?_⟩
    · exact isEmpty_false_of_mem (mem_failedOf hmem_false)
    · intro c hcr
      exact Or.inl (hcalls_shape c hcr)
  · rcases hc2 : check_internet_connection env.probe2 with ⟨b2, l2⟩
    cases b2 with
    | false =>
        rw [updateCore_probe2_down env latency hT (by rw [hc2])] at htrace
        have hA := Option.some.inj htrace
        subst hA
        exact ⟨hnot_t, hfind, hcalls_base, rfl,
          fun c hcr => Or.inl (hcalls_shape c hcr)⟩
    | true =>
        cases l2 with
        | none =>
            have hx := check_fst_eq_isSome env.probe2
            rw [hc2] at hx
            cases hx
        | some newLatency =>
            by_cases hcond : ((fpResults env (base_timeout latency)).any
                (fun e => e.2) || decide (newLatency < 1000)) = true
            · rw [updateCore_retry env latency newLatency hT hc2 hcond]
                at htrace
              have hA := Option.some.inj htrace
              subst hA
              refine ⟨hnot_t, assocFind_append_of_some hfind, ?_, ?_, ?_⟩
              · rw [List.filter_append, hcalls_base,
                  filter_map_const_nil _ _ _ hnot_t, List.append_nil]
              · exact isEmpty_false_of_mem
                  (mem_failedOf (List.mem_append_left _ hmem_false))
              · intro c hcr
                rcases List.mem_append.mp hcr with hcr | hcr
                · exact Or.inl (hcalls_shape c hcr)
                · rw [List.mem_map] at hcr
                  obtain ⟨q, hq, rfl⟩ := hcr
                  exact Or.inr ⟨rfl, hq⟩
            · rw [updateCore_no_retry env latency newLatency hT hc2
                (Bool.not_eq_true _ ▸ hcond)] at htrace
              have hA := Option.some.inj htrace
              subst hA
              refine ⟨hnot_t, assocFind_append_of_some hfind, hcalls_base,
                ?_, ?_⟩
              · exact isEmpty_false_of_mem
                  (mem_failedOf (List.mem_append_left _ hmem_false))
              · intro c hcr
                exact Or.inl (hcalls_shape c hcr)

/-- Witness for claim C3: brew fails without timing out while the other
backends succeed; the run records brew as failed, calls it once at the base
timeout of 60 s, and returns `False`. -/
theorem failure_not_retried_witness :
    Backend.brew ∉ (UpdTrace.mk false
        [(Backend.brew, base_timeout 100), (Backend.flatpak, base_timeout 100),
          (Backend.pipx, base_timeout 100)]
        [(Backend.brew, false), (Backend.flatpak, true), (Backend.pipx, true)]
        [] false).timeoutFailures ∧
    assocFind (UpdTrace.mk false
        [(Backend.brew, base_timeout 100), (Backend.flatpak, base_timeout 100),
          (Backend.pipx, base_timeout 100)]
        [(Backend.brew, false), (Backend.flatpak, true), (Backend.pipx, true)]
        [] false).results Backend.brew = some false ∧
    (UpdTrace.mk false
        [(Backend.brew, base_timeout 100), (Backend.flatpak, base_timeout 100),
          (Backend.pipx, base_timeout 100)]
        [(Backend.brew, false), (Backend.flatpak, true), (Backend.pipx, true)]
        [] false).calls.filter (fun c => decide (c.1 = Backend.brew)) =
      [(Backend.brew, base_timeout 100)] ∧
    (UpdTrace.mk false
        [(Backend.brew, base_timeout 100), (Backend.flatpak, base_timeout 100),
          (Backend.pipx, base_timeout 100)]
        [(Backend.brew, false), (Backend.flatpak, true), (Backend.pipx, true)]
        [] false).retval = false ∧
    ∀ c ∈ (UpdTrace.mk false
        [(Backend.brew, base_timeout 100), (Backend.flatpak, base_timeout 100),
          (Backend.pipx, base_timeout 100)]
        [(Backend.brew, false), (Backend.flatpak, true), (Backend.pipx, true)]
        [] false).calls, c.2 = base_timeout 100 ∨
      (c.2 = base_timeout 100 * 3 ∧ c.1 ∈ (UpdTrace.mk false
        [(Backend.brew, base_timeout 100), (Backend.flatpak, base_timeout 100),
          (Backend.pipx, base_timeout 100)]
        [(Backend.brew, false), (Backend.flatpak, true), (Backend.pipx, true)]
        [] false).timeoutFailures) :=
  failure_not_retried
    ⟨[PingRes.ran 0 (some 100)], [], fun _ => true,
      fun q _ => match q with
        | Backend.brew => (false, false)
        | _ => (true, false)⟩
    100 Backend.brew (by decide) (by decide) (by decide)
    (UpdTrace.mk false
        [(Backend.brew, base_timeout 100), (Backend.flatpak, base_timeout 100),
          (Backend.pipx, base_timeout 100)]
        [(Backend.brew, false), (Backend.flatpak, true), (Backend.pipx, true)]
        [] false)
    rfl

/-- Claim C4: when the first pass had timeouts and the re-probe reports
reachable with a fresh latency, the timed-out backends are retried (one
call each at three times the base timeout, whose success flag is recorded)
if and only if some non-timed-out backend succeeded in the first pass or
the fresh latency is strictly below 1000 ms; otherwise no retry call is
made and every timed-out backend is recorded as failed. -/
theorem retry_gating (env : UpdEnv) (latency newLatency : ℚ)
    (h1 : check_internet_connection env.probe1 = (true, some latency))
    (hT : fpTimeouts env (base_timeout latency) ≠ [])
    (h2 : check_internet_connection env.probe2 = (true, some newLatency)) :
    ∀ trace, update_all_packages env = some trace →
      (((fpResults env (base_timeout latency)).any (fun e => e.2) = true ∨
          newLatency < 1000) →
        trace.retried = true ∧
        ∀ pt ∈ fpTimeouts env (base_timeout latency),
          (pt, base_timeout latency * 3) ∈ trace.calls ∧
          assocFind trace.results pt =
            some (env.upd pt (base_timeout latency * 3)).1) ∧
      (¬ ((fpResults env (base_timeout latency)).any (fun e => e.2) = true ∨
          newLatency < 1000) →
        trace.retried = false ∧
        trace.calls = fpCalls env (base_timeout latency) ∧
        ∀ pt ∈ fpTimeouts env (base_timeout latency),
          assocFind trace.results pt = some false) := by
  intro trace htrace
  rw [update_eq_updateCore env latency h1] at htrace
  have hequiv : ((fpResults env (base_timeout latency)).any (fun e => e.2)
      || decide (newLatency < 1000)) = true ↔
      ((fpResults env (base_timeout latency)).any (fun e => e.2) = true ∨
        newLatency < 1000) := by
    rw [Bool.or_eq_true, decide_eq_true_eq]
  by_cases hcond : ((fpResults env (base_timeout latency)).any (fun e => e.2)
      || decide (newLatency < 1000)) = true
  · rw [updateCore_retry env latency newLatency hT h2 hcond] at htrace
    have hA := Option.some.inj htrace
    subst hA
    constructor
    · intro _
      refine ⟨rfl, fun pt hpt => ⟨?_, ?_⟩⟩
      · exact List.mem_append_right _
          (List.mem_map.mpr ⟨pt, hpt, rfl⟩)
      · have hnone : assocFind (fpResults env (base_timeout latency)) pt =
            none :=
          assocFind_none_of_forall_ne
            (fun e he => fp_disjoint env (base_timeout latency) pt hpt e he)
        rw [assocFind_append_of_none hnone,
          assocFind_map (fun q => (env.upd q (base_timeout latency * 3)).1),
          if_pos hpt]
    · intro hn
      exact absurd (hequiv.mp hcond) hn
  · rw [updateCore_no_retry env latency newLatency hT h2
      (Bool.not_eq_true _ ▸ hcond)] at htrace
    have hA := Option.some.inj htrace
    subst hA
    constructor
    · intro hor
      exact absurd (hequiv.mpr hor) hcond
    · intro _
      refine ⟨rfl, rfl, fun pt hpt => ?_⟩
      have hnone : assocFind (fpResults env (base_timeout latency)) pt =
          none :=
        assocFind_none_of_forall_ne
          (fun e he => fp_disjoint env (base_timeout latency) pt hpt e he)
      rw [assocFind_append_of_none hnone,
        assocFind_map (fun _ => false), if_pos hpt]

/-- Witness for claim C4: pipx times out in the first pass while brew and
flatpak succeed; the re-probe reports 2500 ms, yet pipx is retried at the
tripled timeout (because a sibling backend succeeded) and its retry result
is recorded. -/
theorem retry_gating_witness :
    (UpdTrace.mk false
        [(Backend.brew, base_timeout 100), (Backend.flatpak, base_timeout 100),
          (Backend.pipx, base_timeout 100), (Backend.pipx, base_timeout 100 * 3)]
        [(Backend.brew, true), (Backend.flatpak, true), (Backend.pipx, false)]
        [Backend.pipx] true).retried = true ∧
    (Backend.pipx, base_timeout 100 * 3) ∈ (UpdTrace.mk false
        [(Backend.brew, base_timeout 100), (Backend.flatpak, base_timeout 100),
          (Backend.pipx, base_timeout 100), (Backend.pipx, base_timeout 100 * 3)]
        [(Backend.brew, true), (Backend.flatpak, true), (Backend.pipx, false)]
        [Backend.pipx] true).calls ∧
    assocFind (UpdTrace.mk false
        [(Backend.brew, base_timeout 100), (Backend.flatpak, base_timeout 100),
          (Backend.pipx, base_timeout 100), (Backend.pipx, base_timeout 100 * 3)]
        [(Backend.brew, true), (Backend.flatpak, true), (Backend.pipx, false)]
        [Backend.pipx] true).results Backend.pipx = some false := by
  have h := (retry_gating
    ⟨[PingRes.ran 0 (some 100)], [PingRes.ran 0 (some 2500)], fun _ => true,
      fun q _ => match q with
        | Backend.pipx => (false, true)
        | _ => (true, false)⟩
    100 2500 (by decide) (by decide) (by decide)
    (UpdTrace.mk false
        [(Backend.brew, base_timeout 100), (Backend.flatpak, base_timeout 100),
          (Backend.pipx, base_timeout 100), (Backend.pipx, base_timeout 100 * 3)]
        [(Backend.brew, true), (Backend.flatpak, true), (Backend.pipx, false)]
        [Backend.pipx] true)
    rfl).1 (Or.inl (by decide))
  refine ⟨h.1, (h.2 Backend.pipx (by decide)).1, ?_⟩
  have h3 := (h.2 Backend.pipx (by decide)).2
  simpa using h3

theorem pyTrunc_eq_floor {q : ℚ} (h : 0 ≤ q) : pyTrunc q = ⌊q⌋ := by
  rw [pyTrunc, Rat.floor_def]
  exact Int.tdiv_eq_ediv (Rat.num_nonneg.mpr h) (Int.natCast_nonneg q.den)

/-- Modelled from the spec's words for claim C9: a timeout budget of
`max(60 seconds, latency_ms / 10 interpreted in seconds)` with the division
taken exactly. -/
def claimBaseTimeout (latency : ℚ) : ℚ := max 60 (latency / 10)

/-- Claim C9 counterexample: at a probe latency of 6055 ms the code's
budget is `max(60, int(6055 / 10)) = 605` seconds, not the claimed
`max(60, 6055 / 10) = 605.5` seconds: the code truncates the quotient to an
integer. -/
theorem timeout_budget_cex :
    ((base_timeout 6055 : ℤ) : ℚ) ≠ claimBaseTimeout 6055 := by
  have h1 : pyTrunc ((6055 : ℚ) / 10) = 605 := by
    rw [pyTrunc_eq_floor (by norm_num)]
    norm_num
  rw [base_timeout, claimBaseTimeout, h1,
    max_eq_right (by norm_num : (60 : ℤ) ≤ 605),
    max_eq_right (by norm_num : (60 : ℚ) ≤ 6055 / 10)]
  norm_num

theorem update_calls_shape (env : UpdEnv) (latency : ℚ)
    (h1 : check_internet_connection env.probe1 = (true, some latency)) :
    ∀ trace, update_all_packages env = some trace →
      ∀ c ∈ trace.calls, c.2 = base_timeout latency ∨
        c.2 = base_timeout latency * 3 := by
  intro trace htrace c hc
  rw [update_eq_updateCore env latency h1] at htrace
  have hfp : ∀ d ∈ fpCalls env (base_timeout latency),
      d.2 = base_timeout latency := by
    intro d hd
    rw [fpCalls, List.mem_map] at hd
    obtain ⟨q, -, rfl⟩ := hd
    rfl
  by_cases hT : fpTimeouts env (base_timeout latency) = []
  · rw [updateCore_no_timeout env latency hT] at htrace
    have hA := Option.some.inj htrace
    subst hA
    exact Or.inl (hfp c hc)
  · rcases hc2 : check_internet_connection env.probe2 with ⟨b2, l2⟩
    cases b2 with
    | false =>
        rw [updateCore_probe2_down env latency hT (by rw [hc2])] at htrace
        have hA := Option.some.inj htrace
        subst hA
        exact Or.inl (hfp c hc)
    | true =>
        cases l2 with
        | none =>
            have hx := check_fst_eq_isSome env.probe2
            rw [hc2] at hx
            cases hx
        | some newLatency =>
            by_cases hcond : ((fpResults env (base_timeout latency)).any
                (fun e => e.2) || decide (newLatency < 1000)) = true
            · rw [updateCore_retry env latency newLatency hT hc2 hcond]
                at htrace
              have hA := Option.some.inj htrace
              subst hA
              rcases List.mem_append.mp hc with hc | hc
              · exact Or.inl (hfp c hc)
              · rw [List.mem_map] at hc
                obtain ⟨q, -, rfl⟩ := hc
                exact Or.inr rfl
            · rw [updateCore_no_retry env latency newLatency hT hc2
                (Bool.not_eq_true _ ▸ hcond)] at htrace
              have hA := Option.some.inj htrace
              subst hA
              exact Or.inl (hfp c hc)

/-- Claim C9 (amended): the first-pass budget is
`max(60, ⌊latency_ms / 10⌋)` seconds — the quotient truncated to an
integer — every `update_packages` call of the run uses that budget or
exactly three times it, and in particular 500 ms yields 60 s and 2000 ms
yields 200 s. -/
theorem timeout_budget (env : UpdEnv) (latency : ℚ)
    (h1 : check_internet_connection env.probe1 = (true, some latency))
    (hl : 0 ≤ latency) :
    base_timeout latency = max 60 ⌊latency / 10⌋ ∧
    (∀ trace, update_all_packages env = some trace →
      ∀ c ∈ trace.calls, c.2 = base_timeout latency ∨
        c.2 = base_timeout latency * 3) ∧
    base_timeout 500 = 60 ∧
    base_timeout 2000 = 200 := by
  refine ⟨?_, update_calls_shape env latency h1, ?_, ?_⟩
  · rw [base_timeout, pyTrunc_eq_floor (div_nonneg hl (by norm_num))]
  · have h50 : (⌊(500 : ℚ) / 10⌋ : ℤ) = 50 := by norm_num
    rw [base_timeout, pyTrunc_eq_floor (by norm_num : (0 : ℚ) ≤ 500 / 10),
      h50, max_eq_left (by norm_num)]
  · have h200 : (⌊(2000 : ℚ) / 10⌋ : ℤ) = 200 := by norm_num
    rw [base_timeout, pyTrunc_eq_floor (by norm_num : (0 : ℚ) ≤ 2000 / 10),
      h200, max_eq_right (by norm_num)]

/-- Witness for the amended claim C9 at a probe latency of 100 ms. -/
theorem timeout_budget_witness :
    base_timeout 100 = max 60 ⌊(100 : ℚ) / 10⌋ ∧
    base_timeout 500 = 60 ∧ base_timeout 2000 = 200 := by
  have h := timeout_budget
    ⟨[PingRes.ran 0 (some 100)], [], fun _ => false, fun _ _ => (true, false)⟩
    100 (by decide) (by norm_num)
  exact ⟨h.1, h.2.2.1, h.2.2.2⟩

/-! ### The Registry: `load_config` (lines 72-101) and `sync_packages`
(lines 795-859)

The persisted configuration dict is
`{"primary_machine": ..., "machines": ..., "last_changes": ...}`; machine
records map a name to `{"packages": ..., "last_update": ...}`.  JSON
encoding/decoding and the filesystem are external: `load_config` is
parameterized by the decoder (whose `none` models a `JSONDecodeError`), the
encoder used by `save_config`, and the two file slots (the config path and
its `.json.bak` sibling). -/

/-- A machine record: `{"packages": ..., "last_update": ...}`. -/
structure MachineRecord where
  packages : Backend → List String
  lastUpdate : String

/-- The configuration dict of the script. -/
structure Config where
  primaryMachine : Option String
  machines : List (String × MachineRecord)
  lastChanges : List (String × String)

/-- The fresh configuration `load_config` initializes:
`{"primary_machine": None, "machines": {}, "last_changes": {}}`. -/
def freshConfig : Config := ⟨none, [], []⟩

/-- The two files `load_config` touches: the config path and the
`.json.bak` sibling backup path. -/
structure FileState where
  configFile : Option String
  backupFile : Option String

/-- Embedding of `load_config`: if the config file exists and parses,
return it unchanged; if it exists but fails to parse, copy its bytes to
the sibling backup file, then (as also when the file does not exist)
initialize the fresh configuration, save it, and return it. -/
def load_config (decode : String → Option Config) (encode : Config → String)
    (fs : FileState) : Config × FileState :=
  match fs.configFile with
  | some s =>
      match decode s with
      | some c => (c, fs)
      | none => (freshConfig, ⟨some (encode freshConfig), some s⟩)
  | none => (freshConfig, ⟨some (encode freshConfig), fs.backupFile⟩)

/-- Python dict lookup in the `machines` dict. -/
def lookupRecord (m : List (String × MachineRecord)) (k : String) :
    Option MachineRecord :=
  match m with
  | [] => none
  | e :: rest => if e.1 = k then some e.2 else lookupRecord rest k

/-- Python dict assignment `config["machines"][name] = record`. -/
def insertRecord (m : List (String × MachineRecord)) (k : String)
    (v : MachineRecord) : List (String × MachineRecord) :=
  if m.any (fun e => decide (e.1 = k)) then
    m.map (fun e => if e.1 = k then (k, v) else e)
  else m ++ [(k, v)]

/-- The external world of `sync_packages`' action loop: the success flags
of `install_package` / `remove_package`, and the snapshot
`get_all_packages` returns when re-invoked after changes. -/
structure SyncEnv where
  instOk : Backend → String → Bool
  remOk : Backend → String → Bool
  refreshed : Backend → List String

/-- Whether an attempted action reported success. -/
def actionOk (env : SyncEnv) (a : Action) : Bool :=
  match a.2.1 with
  | Op.install => env.instOk a.1 a.2.2
  | Op.remove => env.remOk a.1 a.2.2

/-- Embedding of `sync_packages`: promote to primary if requested or no
primary is set; if the machine is new or is the primary, just record its
snapshot; otherwise run the sync loop against the primary machine record
(a missing primary record is a `KeyError`, modelled as `none`), refresh
the snapshot if any action succeeded, and record it.  Returns the updated
configuration and the attempted actions. -/
def sync_packages (env : SyncEnv) (config : Config) (machineName : String)
    (makePrimary : Bool) (currentPackages : Backend → List String)
    (now : String) : Option (Config × List Action) :=
  let config1 : Config :=
    if makePrimary || config.primaryMachine.isNone then
      ⟨some machineName, config.machines, config.lastChanges⟩
    else config
  if (lookupRecord config1.machines machineName).isNone
      || decide (config1.primaryMachine = some machineName) then
    some (⟨config1.primaryMachine,
      insertRecord config1.machines machineName ⟨currentPackages, now⟩,
      config1.lastChanges⟩, [])
  else
    match config1.primaryMachine with
    | none => none
    | some primName =>
        match lookupRecord config1.machines primName with
        | none => none
        | some primRec =>
            some (⟨config1.primaryMachine,
              insertRecord config1.machines machineName
                ⟨(if (syncActions currentPackages primRec.packages).any
                      (actionOk env) then
                    env.refreshed
                  else currentPackages), now⟩,
              config1.lastChanges⟩,
              syncActions currentPackages primRec.packages)

/-- Claim C7: when the persisted file exists but fails to parse,
`load_config` writes its exact contents to the sibling backup file and
returns a fresh empty configuration with no primary machine and no
machine records. -/
theorem load_config_backup (decode : String → Option Config)
    (encode : Config → String) (fs : FileState) (s : String)
    (hfile : fs.configFile = some s) (hparse : decode s = none) :
    (load_config decode encode fs).2.backupFile = some s ∧
    (load_config decode encode fs).1.primaryMachine = none ∧
    (load_config decode encode fs).1.machines = [] := by
  simp only [load_config, hfile, hparse]
  simp [freshConfig]

/-- Witness for claim C7: a decoder that rejects the stored bytes. -/
theorem load_config_backup_witness :
    (load_config (fun _ => none) (fun _ => "")
        ⟨some "garbage", none⟩).2.backupFile = some "garbage" ∧
    (load_config (fun _ => none) (fun _ => "")
        ⟨some "garbage", none⟩).1.primaryMachine = none ∧
    (load_config (fun _ => none) (fun _ => "")
        ⟨some "garbage", none⟩).1.machines = [] :=
  load_config_backup (fun _ => none) (fun _ => "")
    ⟨some "garbage", none⟩ "garbage" rfl rfl

theorem lookupRecord_forall_ne {m : List (String × MachineRecord)}
    {k : String} (h : lookupRecord m k = none) : ∀ e ∈ m, e.1 ≠ k := by
  induction m with
  | nil => intro e he; cases he
  | cons e rest ih =>
      rw [lookupRecord] at h
      intro e' he'
      by_cases heq : e.1 = k
      · rw [if_pos heq] at h
        cases h
      · rw [if_neg heq] at h
        rcases List.mem_cons.mp he' with rfl | he'
        · exact heq
        · exact ih h e' he'

/-- Claim C8: a sync call for a machine name with no existing record while
no primary is set promotes that machine to primary, stores its full fresh
snapshot as its record, and attempts no install/remove action. -/
theorem primary_promotion (env : SyncEnv) (config : Config)
    (machineName : String) (makePrimary : Bool)
    (currentPackages : Backend → List String) (now : String)
    (hnew : lookupRecord config.machines machineName = none)
    (hnoprimary : config.primaryMachine = none) :
    sync_packages env config machineName makePrimary currentPackages now =
      some (⟨some machineName,
        config.machines ++ [(machineName, ⟨currentPackages, now⟩)],
        config.lastChanges⟩, []) := by
  have hany : config.machines.any
      (fun e => decide (e.1 = machineName)) = false := by
    rw [List.any_eq_false]
    intro e he
    simpa using lookupRecord_forall_ne hnew e he
  rw [sync_packages]
  simp only [hnoprimary, Option.isNone_none, Bool.or_true, if_true]
  simp only [hnew, Option.isNone_none, Bool.true_or, if_true]
  rw [insertRecord, if_neg (by rw [hany]; exact Bool.false_ne_true)]

/-- Witness for claim C8: the first machine ever synced becomes primary
and its snapshot is stored verbatim, with no actions. -/
theorem primary_promotion_witness :
    sync_packages ⟨fun _ _ => true, fun _ _ => true, fun _ => []⟩
        ⟨none, [], []⟩ "alice" false (fun _ => ["git"]) "t0" =
      some (⟨some "alice", [("alice", ⟨fun _ => ["git"], "t0"⟩)], []⟩, []) :=
  primary_promotion _ _ _ _ _ _ rfl rfl

end PackageSync